import Mathlib

/-!
# The JNI header `AES.h` of scapi's OpenSSL wrapper

The only source file is the generated header
`Code/C++Src/JniOpenSSL/OpenSSLJavaInterface/AES.h`.  It is embedded as its
text, line by line, and read by a small C front end written here: a lexer
(comments, directive lines, identifiers, string literals, punctuation), the
conditional-inclusion part of the preprocessor, and a reader of the function
prototypes that tracks the linkage block they stand in.
-/

namespace AESHeader

/-! ## The header text -/

/-- The text of `AES.h`, one entry per line (32 lines, the last one without a
line break after it). -/
def source : List String := [
  "/* DO NOT EDIT THIS FILE - it is machine generated */",
  "#include <jni.h>",
  "/* Header for class edu_biu_scapi_primitives_prf_openSSL_OpenSSLAES */",
  "",
  "#ifndef _Included_edu_biu_scapi_primitives_prf_openSSL_OpenSSLAES",
  "#define _Included_edu_biu_scapi_primitives_prf_openSSL_OpenSSLAES",
  "#ifdef __cplusplus",
  "extern \"C\" \x7b",
  "#endif",
  "/*",
  " * Class:     edu_biu_scapi_primitives_prf_openSSL_OpenSSLAES",
  " * Method:    createAESCompute",
  " * Signature: ()J",
  " */",
  "JNIEXPORT jlong JNICALL Java_edu_biu_scapi_primitives_prf_openSSL_OpenSSLAES_createAESCompute",
  "  (JNIEnv *, jobject);",
  "",
  "/*",
  " * Class:     edu_biu_scapi_primitives_prf_openSSL_OpenSSLAES",
  " * Method:    createAESInvert",
  " * Signature: ()J",
  " */",
  "JNIEXPORT jlong JNICALL Java_edu_biu_scapi_primitives_prf_openSSL_OpenSSLAES_createAESInvert",
  "  (JNIEnv *, jobject);",
  "",
  "JNIEXPORT void JNICALL Java_edu_biu_scapi_primitives_prf_openSSL_OpenSSLAES_setKey",
  "  (JNIEnv *, jobject, jlong, jlong, jbyteArray);",
  "",
  "#ifdef __cplusplus",
  "\x7d",
  "#endif",
  "#endif"
]

/-- Characters of a list of lines, with a line break between consecutive lines. -/
def linesChars : List String → List Char
  | [] => []
  | [l] => l.data
  | l :: ls => l.data ++ '\n' :: linesChars ls

/-! ## Lexer -/

/-- Lexical items of a C source text.  A directive is a whole line that starts
with `#`; a comment is the body between the comment marks. -/
inductive Token where
  | comment (text : String)
  | directive (text : String)
  | ident (name : String)
  | strLit (text : String)
  | punct (c : Char)
  deriving DecidableEq, Repr

/-- Lexer modes.  `lineStart` records that only blanks and comments were seen
on the current line so far, which is where a `#` opens a directive.  Collected
characters are stored newest first. -/
inductive Mode where
  | code (word : List Char) (lineStart : Bool)
  | slash (lineStart : Bool)
  | comment (body : List Char) (lineStart : Bool)
  | commentStar (body : List Char) (lineStart : Bool)
  | directive (body : List Char)
  | str (body : List Char)
  deriving DecidableEq, Repr

/-- Letters, digits and the underscore. -/
def isIdentChar (c : Char) : Bool :=
  c.isAlphanum || c == '_'

/-- The identifier collected in `word`, if any. -/
def flushWord (word : List Char) : List Token :=
  match word with
  | [] => []
  | _ :: _ => [Token.ident (String.mk word.reverse)]

/-- One character in code mode: the tokens completed by it and the next mode. -/
def stepCode (word : List Char) (lineStart : Bool) (c : Char) : List Token × Mode :=
  if isIdentChar c then ([], .code (c :: word) false)
  else if c == '/' then (flushWord word, .slash lineStart)
  else if c == '#' && lineStart then (flushWord word, .directive [])
  else if c == '"' then (flushWord word, .str [])
  else if c == '\n' then (flushWord word, .code [] true)
  else if c == ' ' || c == '\t' || c == '\r' then (flushWord word, .code [] lineStart)
  else (flushWord word ++ [Token.punct c], .code [] false)

/-- One character of input: the tokens completed by it and the next mode. -/
def lexStep (mode : Mode) (c : Char) : List Token × Mode :=
  match mode with
  | .code word ls => stepCode word ls c
  | .slash ls =>
      if c == '*' then ([], .comment [] ls)
      else
        match stepCode [] false c with
        | (ts, m) => (Token.punct '/' :: ts, m)
  | .comment body ls =>
      if c == '*' then ([], .commentStar body ls)
      else ([], .comment (c :: body) ls)
  | .commentStar body ls =>
      if c == '/' then ([Token.comment (String.mk body.reverse)], .code [] ls)
      else if c == '*' then ([], .commentStar ('*' :: body) ls)
      else ([], .comment (c :: '*' :: body) ls)
  | .directive body =>
      if c == '\n' then ([Token.directive (String.mk body.reverse)], .code [] true)
      else ([], .directive (c :: body))
  | .str body =>
      if c == '"' then ([Token.strLit (String.mk body.reverse)], .code [] false)
      else ([], .str (c :: body))

/-- Tokens at the end of input: a pending identifier or directive is emitted,
an unterminated comment or string is dropped. -/
def lexFinish (mode : Mode) : List Token :=
  match mode with
  | .code word _ => flushWord word
  | .slash _ => [Token.punct '/']
  | .directive body => [Token.directive (String.mk body.reverse)]
  | _ => []

/-- Run the lexer from a mode over a text. -/
def lexFrom : Mode → List Char → List Token
  | mode, [] => lexFinish mode
  | mode, c :: cs =>
      match lexStep mode c with
      | (ts, mode1) => ts ++ lexFrom mode1 cs

/-- The tokens of a text. -/
def lex (cs : List Char) : List Token :=
  lexFrom (.code [] true) cs

/-- The tokens of `AES.h`. -/
def headerTokens : List Token := lex (linesChars source)

/-! ## Preprocessor: conditional inclusion -/

/-- Blank characters. -/
def isBlank (c : Char) : Bool :=
  c == ' ' || c == '\t' || c == '\n' || c == '\r'

/-- The word collected in `word`, if any. -/
def flushText (word : List Char) : List String :=
  match word with
  | [] => []
  | _ :: _ => [String.mk word.reverse]

/-- Split a text at blanks; `word` is the word being collected, newest
character first. -/
def wordsFrom : List Char → List Char → List String
  | word, [] => flushText word
  | word, c :: cs =>
      if isBlank c then flushText word ++ wordsFrom [] cs
      else wordsFrom (c :: word) cs

/-- The blank-separated words of a text. -/
def words (s : String) : List String :=
  wordsFrom [] s.data

/-- Preprocessor state.  `defined` holds the names defined so far; `conds` has
one entry per open conditional group, innermost first, telling whether its
condition held; `included` lists the files asked for by `#include` lines in
active text, newest first. -/
structure Env where
  defined : List String
  conds : List Bool
  included : List String
  deriving DecidableEq, Repr

/-- Text is active when every open conditional group was taken. -/
def Env.active (e : Env) : Bool :=
  e.conds.all id

/-- The directives the header uses; any other directive line is `other`. -/
inductive Directive where
  | ifdef (name : String)
  | ifndef (name : String)
  | endif
  | define (name : String)
  | includeFile (file : String)
  | other
  deriving DecidableEq, Repr

/-- Read the text of a directive line (without its `#`). -/
def parseDirective (text : String) : Directive :=
  match words text with
  | ["ifdef", x] => .ifdef x
  | ["ifndef", x] => .ifndef x
  | ["endif"] => .endif
  | "define" :: x :: _ => .define x
  | "include" :: file => .includeFile (" ".intercalate file)
  | _ => .other

/-- A directive applied to the preprocessor state.  `#define` and `#include`
act in active text only; the files named by `#include` are not part of the
repository and are only recorded. -/
def applyDirective (e : Env) (d : Directive) : Env :=
  match d with
  | .ifdef x => { e with conds := e.defined.contains x :: e.conds }
  | .ifndef x => { e with conds := (!e.defined.contains x) :: e.conds }
  | .endif => { e with conds := e.conds.tail }
  | .define x => if e.active then { e with defined := x :: e.defined } else e
  | .includeFile file => if e.active then { e with included := file :: e.included } else e
  | .other => e

/-- One token through the preprocessor: the tokens passed on and the next
state.  A directive changes the state and passes nothing on; any other token
is passed on in active text and dropped otherwise.  Comments are passed on so
that the declaration reader can attach them to what they document. -/
def ppStep (e : Env) (t : Token) : List Token × Env :=
  match t with
  | .directive text => ([], applyDirective e (parseDirective text))
  | tok => if e.active then ([tok], e) else ([], e)

/-- Run the preprocessor over a token list. -/
def preprocess : Env → List Token → List Token × Env
  | e, [] => ([], e)
  | e, t :: ts =>
      match ppStep e t with
      | (out, e1) =>
          match preprocess e1 ts with
          | (rest, e2) => (out ++ rest, e2)

/-- The state at the start of a translation unit: compiled as C++ the name
`__cplusplus` is predefined, compiled as C nothing the header looks at is. -/
def startEnv (cpp : Bool) : Env :=
  { defined := if cpp then ["__cplusplus"] else [], conds := [], included := [] }

/-- A translation unit that includes the header `n` times in a row. -/
def unit (n : Nat) : List Token :=
  (List.replicate n headerTokens).flatten

/-! ## Declarations -/

/-- A C type as written in a prototype: a type name and a number of `*`. -/
structure CType where
  base : String
  stars : Nat
  deriving DecidableEq, Repr

/-- Language linkage of a declared function. -/
inductive Linkage where
  | c
  | cpp
  deriving DecidableEq, Repr

/-- A function prototype: the comment right before it (if any), return type,
declared name, parameter types and linkage. -/
structure Prototype where
  doc : Option String
  ret : CType
  name : String
  params : List CType
  linkage : Linkage
  deriving DecidableEq, Repr

/-- Tokens that end a statement or open or close a block. -/
def isTerminator (t : Token) : Option Char :=
  match t with
  | .punct c => if c == ';' || c == '\x7b' || c == '\x7d' then some c else none
  | _ => none

/-- Cut a token list into statements, each with the token that ended it;
`cur` is the statement being collected, newest token first. -/
def stmtsFrom : List Token → List Token → List (List Token × Option Char)
  | cur, [] =>
      match cur with
      | [] => []
      | _ :: _ => [(cur.reverse, none)]
  | cur, t :: ts =>
      match isTerminator t with
      | some c => (cur.reverse, some c) :: stmtsFrom [] ts
      | none => stmtsFrom (t :: cur) ts

/-- The comment closest to the first non-comment token of a statement. -/
def leadingDoc : Option String → List Token → Option String
  | _, .comment text :: ts => leadingDoc (some text) ts
  | doc, _ => doc

/-- A statement without its comments. -/
def dropComments (ts : List Token) : List Token :=
  ts.filter fun t => match t with
    | .comment _ => false
    | _ => true

/-- Read `name * ... *` as a type. -/
def parseCType (ts : List Token) : Option CType :=
  match ts with
  | .ident b :: rest =>
      if rest.all (fun t => t == Token.punct '*') then some ⟨b, rest.length⟩ else none
  | _ => none

/-- Split a token list at the commas. -/
def splitCommas : List Token → List Token → List (List Token)
  | cur, [] => [cur.reverse]
  | cur, t :: ts =>
      if t == Token.punct ',' then cur.reverse :: splitCommas [] ts
      else splitCommas (t :: cur) ts

/-- Read every entry as a type, or fail. -/
def parseCTypes : List (List Token) → Option (List CType)
  | [] => some []
  | ts :: rest =>
      match parseCType ts, parseCTypes rest with
      | some t, some r => some (t :: r)
      | _, _ => none

/-- Read the parenthesised parameter list `( type, ..., type )`. -/
def parseParams (ts : List Token) : Option (List CType) :=
  match ts with
  | .punct '(' :: rest =>
      if rest.getLast? == some (Token.punct ')') then
        match rest.dropLast with
        | [] => some []
        | inner => parseCTypes (splitCommas [] inner)
      else none
  | _ => none

/-- The export and calling-convention marks of `jni.h`, which are not part of
the declared type. -/
def isJniMark (t : Token) : Bool :=
  t == Token.ident "JNIEXPORT" || t == Token.ident "JNICALL"

/-- Read a statement as a function prototype
`[JNIEXPORT] type [JNICALL] name ( type, ..., type )`. -/
def parseProto (doc : Option String) (linkage : Linkage) (ts : List Token) : Option Prototype :=
  match ts.span (fun t => t != Token.punct '(') with
  | (pre, post) =>
      match pre.reverse with
      | .ident name :: specsRev =>
          match parseCType (specsRev.reverse.filter fun t => !isJniMark t), parseParams post with
          | some ret, some params => some ⟨doc, ret, name, params, linkage⟩
          | _, _ => none
      | _ => none

/-- Kinds of open blocks. -/
inductive Block where
  | linkageC
  | other
  deriving DecidableEq, Repr

/-- Linkage of a declaration inside the open blocks `blocks`, in a translation
unit compiled as C++ (`cpp`) or as C. -/
def linkageIn (cpp : Bool) (blocks : List Block) : Linkage :=
  if blocks.contains Block.linkageC then Linkage.c
  else if cpp then Linkage.cpp else Linkage.c

/-- Read the prototypes of a statement list; `blocks` are the blocks open at
this point, innermost first. -/
def readDecls (cpp : Bool) : List Block → List (List Token × Option Char) → List Prototype
  | _, [] => []
  | blocks, (ts, term) :: rest =>
      let body := dropComments ts
      if term == some '\x7b' then
        if body == [Token.ident "extern", Token.strLit "C"] then
          readDecls cpp (Block.linkageC :: blocks) rest
        else readDecls cpp (Block.other :: blocks) rest
      else if term == some '\x7d' then readDecls cpp blocks.tail rest
      else
        match parseProto (leadingDoc none ts) (linkageIn cpp blocks) body with
        | some p => p :: readDecls cpp blocks rest
        | none => readDecls cpp blocks rest

/-- The prototypes declared by a preprocessed token list. -/
def declsOf (cpp : Bool) (ts : List Token) : List Prototype :=
  readDecls cpp [] (stmtsFrom [] ts)

/-- Whether an environment belongs to a C++ compilation. -/
def Env.cpp (e : Env) : Bool :=
  e.defined.contains "__cplusplus"

/-- The prototypes a translation unit gets from including the header `n`
times, starting from the preprocessor state `e`. -/
def declarationsFrom (e : Env) (n : Nat) : List Prototype :=
  declsOf e.cpp (preprocess e (unit n)).1

/-- The prototypes a translation unit gets from including the header `n`
times, compiled as C++ or as C. -/
def declarations (cpp : Bool) (n : Nat) : List Prototype :=
  declarationsFrom (startEnv cpp) n

/-- The prototypes declared by `AES.h`. -/
def prototypes (cpp : Bool) : List Prototype :=
  declarations cpp 1

/-- The symbol a declared function is exported under: the declared name itself
under C linkage, a name encoded from the name and the parameter types under
C++ linkage. -/
inductive Symbol where
  | plain (name : String)
  | encoded (name : String) (params : List CType)
  deriving DecidableEq, Repr

/-- The exported symbol of a prototype. -/
def Prototype.symbol (p : Prototype) : Symbol :=
  match p.linkage with
  | .c => .plain p.name
  | .cpp => .encoded p.name p.params

/-! ## Generated comments and the include guard -/

/-- Split a text at line breaks; `cur` is the line being collected, newest
character first. -/
def linesFrom : List Char → List Char → List String
  | cur, [] => [String.mk cur.reverse]
  | cur, c :: cs =>
      if c == '\n' then String.mk cur.reverse :: linesFrom [] cs
      else linesFrom (c :: cur) cs

/-- The value of a field of a generated method comment, written on a line of
its own as ` * key: value`. -/
def docField (key : String) (doc : String) : Option String :=
  (linesFrom [] doc.data).findSome? fun l =>
    match words l with
    | ["*", k, v] => if k == key ++ ":" then some v else none
    | _ => none

/-- The class named by the comment `Header for class ...`. -/
def headerClassOf (ts : List Token) : Option String :=
  ts.findSome? fun t =>
    match t with
    | .comment text =>
        match words text with
        | ["Header", "for", "class", x] => some x
        | _ => none
    | _ => none

/-- The include guard: the name tested by an `#ifndef` line that the next line
defines. -/
def includeGuardOf (ts : List Token) : Option String :=
  (ts.zip ts.tail).findSome? fun p =>
    match p with
    | (.directive a, .directive b) =>
        match words a, words b with
        | ["ifndef", x], "define" :: y :: _ => if x == y then some x else none
        | _, _ => none
    | _ => none

/-! ## JNI names -/

/-- The JNI encoding of one character of a class or method name: letters and
digits stand for themselves, the package separator becomes `_`, and `_`, `;`
and `[` are escaped.  Other characters (which take the form `_0xxxx`) are not
covered. -/
def mangleChar (c : Char) : Option (List Char) :=
  if c.isAlphanum then some [c]
  else if c == '.' || c == '/' then some ['_']
  else if c == '_' then some ['_', '1']
  else if c == ';' then some ['_', '2']
  else if c == '[' then some ['_', '3']
  else none

/-- The JNI encoding of a name. -/
def mangle : List Char → Option (List Char)
  | [] => some []
  | c :: cs =>
      match mangleChar c, mangle cs with
      | some a, some b => some (a ++ b)
      | _, _ => none

/-- The native symbol JNI looks up for method `method` of class `cls` (the
short form, without an argument signature). -/
def jniSymbol (cls method : String) : Option String :=
  match mangle cls.data, mangle method.data with
  | some c, some m => some (String.mk ("Java_".data ++ c ++ '_' :: m))
  | _, _ => none

/-- Split a native symbol into its components at the separating underscores,
undoing the escapes `_1`, `_2`, `_3`.  `cur` is the component being collected,
newest character first; `pending` tells that the previous character was an
underscore not yet accounted for. -/
def symbolPartsFrom : List Char → Bool → List Char → List String
  | cur, false, [] => [String.mk cur.reverse]
  | cur, true, [] => [String.mk cur.reverse, ""]
  | cur, false, c :: cs =>
      if c == '_' then symbolPartsFrom cur true cs
      else symbolPartsFrom (c :: cur) false cs
  | cur, true, c :: cs =>
      if c == '1' then symbolPartsFrom ('_' :: cur) false cs
      else if c == '2' then symbolPartsFrom (';' :: cur) false cs
      else if c == '3' then symbolPartsFrom ('[' :: cur) false cs
      else if c == '_' then String.mk cur.reverse :: symbolPartsFrom [] true cs
      else String.mk cur.reverse :: symbolPartsFrom [c] false cs

/-- The Java class and method a native symbol `Java_<class>_<method>` is bound
to. -/
def decodeSymbol (sym : String) : Option (String × String) :=
  match symbolPartsFrom [] false sym.data with
  | "Java" :: rest =>
      match rest.reverse with
      | method :: c :: clsRev => some (".".intercalate (c :: clsRev).reverse, method)
      | _ => none
  | _ => none

/-- The Java class a prototype belongs to. -/
def Prototype.javaClass (p : Prototype) : Option String :=
  (decodeSymbol p.name).map Prod.fst

/-- The Java method a prototype implements. -/
def Prototype.method (p : Prototype) : Option String :=
  (decodeSymbol p.name).map Prod.snd

/-! ## Java method descriptors and their native types -/

/-- Java types as they occur in method descriptors. -/
inductive JType where
  | boolean
  | byte
  | char
  | short
  | int
  | long
  | float
  | double
  | object (cls : String)
  | array (elem : JType)
  deriving DecidableEq, Repr

/-- Read one field type from a descriptor, returning the rest. -/
def parseField : List Char → Option (JType × List Char)
  | [] => none
  | c :: r =>
      if c == 'Z' then some (.boolean, r)
      else if c == 'B' then some (.byte, r)
      else if c == 'C' then some (.char, r)
      else if c == 'S' then some (.short, r)
      else if c == 'I' then some (.int, r)
      else if c == 'J' then some (.long, r)
      else if c == 'F' then some (.float, r)
      else if c == 'D' then some (.double, r)
      else if c == 'L' then
        match r.dropWhile (fun x => x != ';') with
        | _ :: r1 => some (.object (String.mk (r.takeWhile fun x => x != ';')), r1)
        | [] => none
      else if c == '[' then
        match parseField r with
        | some (t, r1) => some (.array t, r1)
        | none => none
      else none

/-- Read parameter types up to the closing parenthesis. -/
def parseFields : Nat → List Char → Option (List JType × List Char)
  | 0, _ => none
  | fuel + 1, cs =>
      match cs with
      | [] => none
      | c :: r =>
          if c == ')' then some ([], r)
          else
            match parseField cs with
            | some (t, r1) =>
                match parseFields fuel r1 with
                | some (ts, r2) => some (t :: ts, r2)
                | none => none
            | none => none

/-- Read a method descriptor `(params)ret`; the return type `none` is `void`. -/
def parseDescriptor (s : String) : Option (List JType × Option JType) :=
  match s.data with
  | [] => none
  | c :: r =>
      if c == '(' then
        match parseFields (r.length + 1) r with
        | some (ps, rest) =>
            if rest == ['V'] then some (ps, none)
            else
              match parseField rest with
              | some (t, []) => some (ps, some t)
              | _ => none
        | none => none
      else none

/-- The descriptor characters of a Java type. -/
def JType.descriptor : JType → List Char
  | .boolean => ['Z']
  | .byte => ['B']
  | .char => ['C']
  | .short => ['S']
  | .int => ['I']
  | .long => ['J']
  | .float => ['F']
  | .double => ['D']
  | .object cls => 'L' :: cls.data ++ [';']
  | .array t => '[' :: t.descriptor

/-- The native type JNI gives to a Java type. -/
def jniType : JType → CType
  | .boolean => ⟨"jboolean", 0⟩
  | .byte => ⟨"jbyte", 0⟩
  | .char => ⟨"jchar", 0⟩
  | .short => ⟨"jshort", 0⟩
  | .int => ⟨"jint", 0⟩
  | .long => ⟨"jlong", 0⟩
  | .float => ⟨"jfloat", 0⟩
  | .double => ⟨"jdouble", 0⟩
  | .object cls =>
      if cls == "java/lang/String" then ⟨"jstring", 0⟩
      else if cls == "java/lang/Class" then ⟨"jclass", 0⟩
      else if cls == "java/lang/Throwable" then ⟨"jthrowable", 0⟩
      else ⟨"jobject", 0⟩
  | .array .boolean => ⟨"jbooleanArray", 0⟩
  | .array .byte => ⟨"jbyteArray", 0⟩
  | .array .char => ⟨"jcharArray", 0⟩
  | .array .short => ⟨"jshortArray", 0⟩
  | .array .int => ⟨"jintArray", 0⟩
  | .array .long => ⟨"jlongArray", 0⟩
  | .array .float => ⟨"jfloatArray", 0⟩
  | .array .double => ⟨"jdoubleArray", 0⟩
  | .array _ => ⟨"jobjectArray", 0⟩

/-- The native return type for a Java return type. -/
def jniReturn : Option JType → CType
  | none => ⟨"void", 0⟩
  | some t => jniType t

/-- The native parameter list of an instance method: the JNI environment
pointer, the object the method is called on, then the Java parameters. -/
def jniParams (ps : List JType) : List CType :=
  ⟨"JNIEnv", 1⟩ :: ⟨"jobject", 0⟩ :: ps.map jniType

/-- The native return type and parameter list a descriptor translates to. -/
def translateDescriptor (s : String) : Option (CType × List CType) :=
  (parseDescriptor s).map fun d => (jniReturn d.2, jniParams d.1)

/-- A Java native method as the spec writes it: name, parameter types and
return type (`none` for `void`). -/
structure JavaMethod where
  name : String
  params : List JType
  ret : Option JType
  deriving DecidableEq, Repr

/-- The descriptor of a Java method. -/
def JavaMethod.descriptor (m : JavaMethod) : String :=
  String.mk ('(' :: (m.params.map JType.descriptor).flatten ++ ')' ::
    (match m.ret with
     | none => ['V']
     | some t => t.descriptor))

/-- The interface as the spec lists it: `long createAESCompute()`,
`long createAESInvert()`, `void setKey(long, long, byte[])`. -/
def specMethods : List JavaMethod := [
  ⟨"createAESCompute", [], some .long⟩,
  ⟨"createAESInvert", [], some .long⟩,
  ⟨"setKey", [.long, .long, .array .byte], none⟩
]

/-- Width in bits of the Java primitive types. -/
def JType.bits : JType → Option Nat
  | .boolean => some 8
  | .byte => some 8
  | .char => some 16
  | .short => some 16
  | .int => some 32
  | .long => some 64
  | .float => some 32
  | .double => some 64
  | _ => none

/-- The part of a qualified class name after the last dot. -/
def simpleName (cls : String) : String :=
  String.mk (cls.data.reverse.takeWhile fun c => c != '.').reverse

/-- A name with every dot replaced by an underscore. -/
def dotsToUnderscores (s : String) : String :=
  String.mk (s.data.map fun c => if c == '.' then '_' else c)

/-- The prototype of the header that implements the Java method `m`. -/
def findProto (cpp : Bool) (m : String) : Option Prototype :=
  (prototypes cpp).find? fun p => p.method == some m

/-- The Java class the header is generated for. -/
def javaClassName : String := "edu.biu.scapi.primitives.prf.openSSL.OpenSSLAES"

/-- The three native methods. -/
def methodNames : List String := ["createAESCompute", "createAESInvert", "setKey"]

/-! ## Auxiliary notions for the inclusion argument -/

/-- Comment tokens. -/
def Token.isComment : Token → Bool
  | .comment _ => true
  | _ => false

/-- The include guard of the header. -/
def guardName : String := "_Included_edu_biu_scapi_primitives_prf_openSSL_OpenSSLAES"

/-- The names tested by the conditional directives of a token list. -/
def queried : List Token → List String
  | [] => []
  | .directive text :: ts =>
      match parseDirective text with
      | .ifdef x => x :: queried ts
      | .ifndef x => x :: queried ts
      | _ => queried ts
  | _ :: ts => queried ts

/-- Two preprocessor states agree on a list of names: the same open
conditional groups, and every listed name defined in both or in neither. -/
def Agree (names : List String) (e e1 : Env) : Prop :=
  e.conds = e1.conds ∧ ∀ x ∈ names, e.defined.contains x = e1.defined.contains x

/-- A preprocessor state with no open conditional group in which, of the two
names the header tests, exactly the chosen ones are defined. -/
def probeEnv (guarded cpp : Bool) : Env :=
  { defined := (if guarded then [guardName] else []) ++ (if cpp then ["__cplusplus"] else []),
    conds := [], included := [] }

end AESHeader

/-! ## The native side -/

namespace NativeModel

/-- Modelled from the spec: the native side of the three entry points, whose
implementation is not among the source files.  A cipher context is configured
for the forward (encrypt) or the inverse (decrypt) direction. -/
inductive Direction where
  | forward
  | inverse
  deriving DecidableEq, Repr

/-- Modelled from the spec: a native cipher context, holding its direction and
the key bytes installed by `setKey`, if any. -/
structure CipherContext where
  direction : Direction
  key : Option (List Nat)
  deriving DecidableEq, Repr

/-- Modelled from the spec: the native memory owned by native code, as the
allocated cipher contexts with their addresses. -/
structure Native where
  contexts : List (Nat × CipherContext)
  deriving DecidableEq, Repr

/-- Modelled from the spec: a handle is usable when it carries the address of
an allocated context. -/
def Native.live (n : Native) (h : Nat) : Bool :=
  n.contexts.any fun p => p.1 == h

/-- Modelled from the spec: the address of a newly allocated object, above
every address in use and therefore not the null address; allocation fails when
no 64-bit address is left. -/
def freshAddress (n : Native) : Option Nat :=
  let a := (n.contexts.map Prod.fst).foldr max 0 + 1
  if a < 2 ^ 64 then some a else none

/-- Modelled from the spec: the body of the two factory entry points, which the
header only declares.  A factory call allocates a context configured for the
given direction and returns its address as the handle; `none` stands for an
unsuccessful call, whose signalling the spec leaves open. -/
def createAES (d : Direction) (n : Native) : Option (Nat × Native) :=
  match freshAddress n with
  | some a => some (a, ⟨(a, ⟨d, none⟩) :: n.contexts⟩)
  | none => none

/-- Modelled from the spec: `createAESCompute`, the forward-direction factory. -/
def createAESCompute (n : Native) : Option (Nat × Native) :=
  createAES .forward n

/-- Modelled from the spec: `createAESInvert`, the inverse-direction factory. -/
def createAESInvert (n : Native) : Option (Nat × Native) :=
  createAES .inverse n

/-- Modelled from the spec: what a `setKey` call comes to.  The call has no
return value; it either installs the key or fails, on a handle that stands for
no context or on a key the cipher library refuses. -/
inductive SetKeyOutcome where
  | installed (n : Native)
  | invalidHandle
  | invalidKey
  deriving DecidableEq, Repr

/-- Modelled from the spec: install key bytes into the context at an address. -/
def install (h : Nat) (key : List Nat) (n : Native) : Native :=
  ⟨n.contexts.map fun p => if p.1 == h then (p.1, { p.2 with key := some key }) else p⟩

/-- Modelled from the spec: the body of `setKey`, which the header only
declares.  It takes two handles and a byte array and installs the key into the
contexts the handles stand for.  Which keys are acceptable is decided by the
cipher library, the parameter `keyOk`. -/
def setKey (keyOk : List Nat → Bool) (h1 h2 : Nat) (key : List Nat) (n : Native) :
    SetKeyOutcome :=
  if n.live h1 && n.live h2 then
    if keyOk key then .installed (install h2 key (install h1 key n))
    else .invalidKey
  else .invalidHandle

/-- Modelled from the spec: a call of one of the three entry points the header
declares (it declares none that releases a context). -/
inductive Call where
  | createCompute
  | createInvert
  | setKey (h1 h2 : Nat) (key : List Nat)
  deriving DecidableEq, Repr

/-- Modelled from the spec: the native memory after a call; an unsuccessful
call leaves it as it was. -/
def step (keyOk : List Nat → Bool) (n : Native) : Call → Native
  | .createCompute =>
      match createAESCompute n with
      | some r => r.2
      | none => n
  | .createInvert =>
      match createAESInvert n with
      | some r => r.2
      | none => n
  | .setKey h1 h2 key =>
      match setKey keyOk h1 h2 key n with
      | .installed n1 => n1
      | _ => n

/-- Modelled from the spec: the native memory after a sequence of calls. -/
def run (keyOk : List Nat → Bool) (n : Native) (calls : List Call) : Native :=
  calls.foldl (step keyOk) n

/-- Modelled from the spec: the key lengths the spec names as examples of what
the cipher library takes, 128, 192 and 256 bits, counted in bytes. -/
def aesKeyLength (key : List Nat) : Bool :=
  key.length == 16 || key.length == 24 || key.length == 32

end NativeModel

set_option maxRecDepth 100000

namespace AESHeader

/-! ## The declared interface -/

/-- C1: the header declares exactly three prototypes, whether compiled as C++
or as C; the Java methods they implement are `createAESCompute`,
`createAESInvert` and `setKey`, pairwise distinct, and each belongs to the
class `OpenSSLAES`. -/
theorem header_declares_exactly_three_entry_points : ∀ cpp : Bool,
    (prototypes cpp).length = 3 ∧
    (prototypes cpp).map Prototype.method =
      [some "createAESCompute", some "createAESInvert", some "setKey"] ∧
    ((prototypes cpp).map Prototype.method).Nodup ∧
    ∀ p ∈ prototypes cpp,
      p.javaClass = some javaClassName ∧ p.javaClass.map simpleName = some "OpenSSLAES" := by
  decide

/-- C2: the prototypes of `createAESCompute` and `createAESInvert` have the
parameter list `(JNIEnv *, jobject)` and return `jlong`, the native type of the
64-bit Java `long`; they agree in parameters, return type and linkage and
differ in name. -/
theorem factory_prototypes_shape : ∀ cpp : Bool,
    (findProto cpp "createAESCompute").map (fun p => (p.ret, p.params)) =
      some (⟨"jlong", 0⟩, [⟨"JNIEnv", 1⟩, ⟨"jobject", 0⟩]) ∧
    (findProto cpp "createAESInvert").map (fun p => (p.ret, p.params)) =
      some (⟨"jlong", 0⟩, [⟨"JNIEnv", 1⟩, ⟨"jobject", 0⟩]) ∧
    (findProto cpp "createAESCompute").map (fun p => (p.ret, p.params, p.linkage)) =
      (findProto cpp "createAESInvert").map (fun p => (p.ret, p.params, p.linkage)) ∧
    (findProto cpp "createAESCompute").map (fun p => p.name) ≠
      (findProto cpp "createAESInvert").map (fun p => p.name) ∧
    jniType .long = ⟨"jlong", 0⟩ ∧ JType.bits .long = some 64 := by
  decide

/-- C3: the prototype of `setKey` takes, after the environment pointer and the
object reference, two `jlong` and then one `jbyteArray`, and returns `void`. -/
theorem setKey_prototype_shape : ∀ cpp : Bool,
    (findProto cpp "setKey").map (fun p => (p.ret, p.params)) =
      some (⟨"void", 0⟩,
        [⟨"JNIEnv", 1⟩, ⟨"jobject", 0⟩, ⟨"jlong", 0⟩, ⟨"jlong", 0⟩, ⟨"jbyteArray", 0⟩]) := by
  decide

/-- C4: the declared symbols are, in order, the JNI symbols of the three
methods of the class `edu.biu.scapi.primitives.prf.openSSL.OpenSSLAES`; the
encoded class name is the class name with every dot replaced by an underscore,
it is the class named by the header comment, and the include guard is
`_Included_` followed by it. -/
theorem symbols_follow_jni_naming : ∀ cpp : Bool,
    (prototypes cpp).map (fun p => some p.name) = methodNames.map (jniSymbol javaClassName) ∧
    (∀ m ∈ methodNames, jniSymbol javaClassName m =
      some ("Java_" ++ dotsToUnderscores javaClassName
        ++ "_" ++ m)) ∧
    headerClassOf headerTokens =
      some (dotsToUnderscores javaClassName) ∧
    includeGuardOf headerTokens =
      some ("_Included_" ++ dotsToUnderscores javaClassName) := by
  decide

/-- C6: every prototype with a generated `Signature:` comment is the JNI
translation of that descriptor; these are `createAESCompute` and
`createAESInvert`, both with `()J`, which reads as no parameters and return
type `long`; and all three prototypes, `setKey` included, are the translations
of the descriptors `()J`, `()J`, `(JJ[B)V` of the methods as the spec lists
them. -/
theorem prototypes_translate_descriptors : ∀ cpp : Bool,
    (∀ p ∈ prototypes cpp, ∀ sig, p.doc.bind (docField "Signature") = some sig →
      translateDescriptor sig = some (p.ret, p.params)) ∧
    (prototypes cpp).map (fun p => (p.method, p.doc.bind (docField "Signature"))) =
      [(some "createAESCompute", some "()J"), (some "createAESInvert", some "()J"),
        (some "setKey", none)] ∧
    parseDescriptor "()J" = some ([], some JType.long) ∧
    translateDescriptor "()J" = some (⟨"jlong", 0⟩, [⟨"JNIEnv", 1⟩, ⟨"jobject", 0⟩]) ∧
    specMethods.map JavaMethod.descriptor = ["()J", "()J", "(JJ[B)V"] ∧
    (prototypes cpp).map (fun p => (p.method, some (p.ret, p.params))) =
      specMethods.map (fun m => (some m.name, translateDescriptor m.descriptor)) := by
  intro cpp
  refine ⟨?_, ?_⟩
  · have h : ∀ p ∈ prototypes cpp,
        p.doc.bind (docField "Signature") = none ∨
        (p.doc.bind (docField "Signature")).bind translateDescriptor =
          some (p.ret, p.params) := by
      revert cpp
      decide
    intro p hp sig hsig
    rcases h p hp with hnone | hsome
    · rw [hsig] at hnone
      exact absurd hnone (by simp)
    · rw [hsig] at hsome
      exact hsome
  · revert cpp
    decide

/-- A prototype outside a C linkage block has C++ linkage in a C++ compilation:
the reader does tell the two apart. -/
theorem linkage_outside_block :
    (declsOf true (lex "void f(jlong); extern \"C\" \x7b void g(jlong); \x7d".data)).map
      (fun p => (p.name, p.linkage)) = [("f", Linkage.cpp), ("g", Linkage.c)] := by
  decide

/-! ## Inclusion and linkage -/

theorem Agree.active {names : List String} {e e1 : Env} (h : Agree names e e1) :
    e.active = e1.active := by
  unfold Env.active
  rw [h.1]

theorem applyDirective_agree {names : List String} {e e1 : Env} (d : Directive)
    (hq : ∀ x, d = .ifdef x ∨ d = .ifndef x → x ∈ names) (h : Agree names e e1) :
    Agree names (applyDirective e d) (applyDirective e1 d) := by
  have hact := h.active
  obtain ⟨hc, hd⟩ := h
  cases d with
  | ifdef x =>
      have hx := hd x (hq x (Or.inl rfl))
      exact ⟨by simp only [applyDirective, hc, hx], hd⟩
  | ifndef x =>
      have hx := hd x (hq x (Or.inr rfl))
      exact ⟨by simp only [applyDirective, hc, hx], hd⟩
  | endif => exact ⟨by simp only [applyDirective, hc], hd⟩
  | define x =>
      unfold applyDirective
      rw [hact]
      cases e1.active
      · exact ⟨hc, hd⟩
      · refine ⟨hc, ?_⟩
        intro y hy
        simp only [List.contains_cons, hd y hy, if_true]
  | includeFile file =>
      unfold applyDirective
      rw [hact]
      cases e1.active
      · exact ⟨hc, hd⟩
      · exact ⟨hc, hd⟩
  | other => exact ⟨hc, hd⟩

theorem ppStep_agree {names : List String} {e e1 : Env} (t : Token)
    (hq : ∀ x ∈ queried [t], x ∈ names) (h : Agree names e e1) :
    (ppStep e t).1 = (ppStep e1 t).1 ∧ Agree names (ppStep e t).2 (ppStep e1 t).2 := by
  cases t with
  | directive text =>
      refine ⟨rfl, applyDirective_agree _ ?_ h⟩
      intro x hx
      apply hq
      rcases hx with hx | hx <;> simp [queried, hx]
  | comment text => simp only [ppStep, h.active]; split <;> exact ⟨rfl, h⟩
  | ident name => simp only [ppStep, h.active]; split <;> exact ⟨rfl, h⟩
  | strLit text => simp only [ppStep, h.active]; split <;> exact ⟨rfl, h⟩
  | punct c => simp only [ppStep, h.active]; split <;> exact ⟨rfl, h⟩


theorem queried_append (a b : List Token) : queried (a ++ b) = queried a ++ queried b := by
  induction a with
  | nil => rfl
  | cons t ts ih =>
      cases t with
      | directive text =>
          simp only [List.cons_append, queried]
          cases parseDirective text <;> simp [ih]
      | comment text => simpa [queried] using ih
      | ident name => simpa [queried] using ih
      | strLit text => simpa [queried] using ih
      | punct c => simpa [queried] using ih

theorem preprocess_agree {names : List String} (ts : List Token) :
    ∀ (e e1 : Env), (∀ x ∈ queried ts, x ∈ names) → Agree names e e1 →
      (preprocess e ts).1 = (preprocess e1 ts).1 ∧
      Agree names (preprocess e ts).2 (preprocess e1 ts).2 := by
  induction ts with
  | nil => intro e e1 _ h; exact ⟨rfl, h⟩
  | cons t ts ih =>
      intro e e1 hq h
      have hsplit : queried (t :: ts) = queried [t] ++ queried ts := queried_append [t] ts
      have hstep := @ppStep_agree names e e1 t
        (fun x hx => hq x (by rw [hsplit]; exact List.mem_append_left _ hx)) h
      have hrest := ih (ppStep e t).2 (ppStep e1 t).2
        (fun x hx => hq x (by rw [hsplit]; exact List.mem_append_right _ hx)) hstep.2
      simp only [preprocess]
      exact ⟨by rw [hstep.1, hrest.1], hrest.2⟩

theorem preprocess_append (a b : List Token) :
    ∀ e : Env, preprocess e (a ++ b) =
      ((preprocess e a).1 ++ (preprocess (preprocess e a).2 b).1,
        (preprocess (preprocess e a).2 b).2) := by
  induction a with
  | nil => intro e; simp [preprocess]
  | cons t ts ih =>
      intro e
      have h := ih (ppStep e t).2
      rw [List.cons_append]
      simp only [preprocess]
      rw [h, List.append_assoc]

theorem unit_succ (n : Nat) : unit (n + 1) = headerTokens ++ unit n := by
  simp [unit, List.replicate_succ]


theorem agree_probe (e : Env) (htop : e.conds = []) :
    Agree ["__cplusplus", guardName] e (probeEnv (e.defined.contains guardName) e.cpp) := by
  refine ⟨by simp [probeEnv, htop], ?_⟩
  intro x hx
  simp only [List.mem_cons, List.mem_singleton, List.not_mem_nil, or_false] at hx
  unfold Env.cpp
  rcases hx with rfl | rfl
  · cases h1 : e.defined.contains guardName <;> cases h2 : e.defined.contains "__cplusplus" <;>
      simp [probeEnv, h2, guardName]
  · cases h1 : e.defined.contains guardName <;> cases h2 : e.defined.contains "__cplusplus" <;>
      simp [probeEnv, h1, guardName]

theorem queried_header : ∀ x ∈ queried headerTokens, x ∈ ["__cplusplus", guardName] := by
  decide

theorem probe_first : ∀ guarded cpp : Bool,
    (preprocess (probeEnv guarded cpp) headerTokens).2.conds = [] ∧
    (preprocess (probeEnv guarded cpp) headerTokens).2.defined.contains guardName = true ∧
    (preprocess (probeEnv guarded cpp) headerTokens).2.cpp = cpp := by
  decide

theorem probe_guarded : ∀ cpp : Bool,
    ((preprocess (probeEnv true cpp) headerTokens).1.all Token.isComment) = true := by
  decide


theorem after_inclusion (e : Env) (htop : e.conds = []) :
    (preprocess e headerTokens).2.conds = [] ∧
    (preprocess e headerTokens).2.defined.contains guardName = true ∧
    (preprocess e headerTokens).2.cpp = e.cpp := by
  have hag := (preprocess_agree headerTokens e _ queried_header (agree_probe e htop)).2
  have hp := probe_first (e.defined.contains guardName) e.cpp
  refine ⟨hag.1.trans hp.1, ?_, ?_⟩
  · rw [hag.2 guardName (List.mem_cons_of_mem _ (List.mem_singleton.2 rfl))]
    exact hp.2.1
  · have hcpp : ∀ x : Env, x.cpp = x.defined.contains "__cplusplus" := fun _ => rfl
    rw [hcpp (preprocess e headerTokens).2, hag.2 "__cplusplus" (List.mem_cons_self _ _),
      ← hcpp]
    exact hp.2.2

theorem guarded_inclusion (e : Env) (htop : e.conds = [])
    (hg : e.defined.contains guardName = true) :
    (preprocess e headerTokens).1.all Token.isComment = true := by
  have hag := agree_probe e htop
  rw [hg] at hag
  rw [(preprocess_agree headerTokens e _ queried_header hag).1]
  exact probe_guarded e.cpp

theorem guarded_unit (k : Nat) : ∀ e : Env, e.conds = [] →
    e.defined.contains guardName = true →
    (preprocess e (unit k)).1.all Token.isComment = true := by
  induction k with
  | zero => intro e _ _; rfl
  | succ k ih =>
      intro e htop hg
      have hafter := after_inclusion e htop
      rw [unit_succ, preprocess_append, List.all_append, guarded_inclusion e htop hg,
        ih _ hafter.1 hafter.2.1]
      rfl

theorem parseProto_nil (doc : Option String) (l : Linkage) : parseProto doc l [] = none := rfl

theorem parseProto_trailing_text (l : Linkage) (text : String) :
    ∀ (xs : List Token) (doc : Option String),
      parseProto (leadingDoc doc (xs ++ [Token.comment text])) l
          (dropComments (xs ++ [Token.comment text])) =
        parseProto (leadingDoc doc xs) l (dropComments xs) := by
  intro xs
  induction xs with
  | nil => intro doc; rfl
  | cons x xs ih =>
      intro doc
      cases x with
      | comment t => simpa [leadingDoc, dropComments] using ih (some t)
      | _ => simp [leadingDoc, dropComments]

theorem parseProto_trailing (l : Linkage) (c : Token) (hc : c.isComment = true)
    (xs : List Token) (doc : Option String) :
    parseProto (leadingDoc doc (xs ++ [c])) l (dropComments (xs ++ [c])) =
      parseProto (leadingDoc doc xs) l (dropComments xs) := by
  cases c with
  | comment text => exact parseProto_trailing_text l text xs doc
  | _ => simp [Token.isComment] at hc

theorem isTerminator_comment (c : Token) (hc : c.isComment = true) : isTerminator c = none := by
  cases c <;> simp_all [Token.isComment, isTerminator]

theorem readDecls_last (cpp : Bool) (blocks : List Block) (ts : List Token) :
    readDecls cpp blocks [(ts, none)] =
      match parseProto (leadingDoc none ts) (linkageIn cpp blocks) (dropComments ts) with
      | some p => [p]
      | none => [] := by
  simp only [readDecls]
  split
  · simp_all
  · rfl

theorem readDecls_pending (cpp : Bool) (blocks : List Block) (cur : List Token) :
    readDecls cpp blocks (stmtsFrom cur []) = readDecls cpp blocks [(cur.reverse, none)] := by
  cases cur with
  | nil =>
      rw [readDecls_last]
      simp [stmtsFrom, readDecls, dropComments, parseProto_nil]
  | cons t ts => simp [stmtsFrom]

theorem readDecls_comments (cpp : Bool) (blocks : List Block) (cs : List Token)
    (hcs : cs.all Token.isComment = true) :
    ∀ cur : List Token,
      readDecls cpp blocks (stmtsFrom cur cs) = readDecls cpp blocks (stmtsFrom cur []) := by
  induction cs with
  | nil => intro cur; rfl
  | cons c cs ih =>
      intro cur
      simp only [List.all_cons, Bool.and_eq_true] at hcs
      have hstep : stmtsFrom cur (c :: cs) = stmtsFrom (c :: cur) cs := by
        simp [stmtsFrom, isTerminator_comment c hcs.1]
      rw [hstep, ih hcs.2, readDecls_pending, readDecls_pending, readDecls_last, readDecls_last,
        List.reverse_cons, parseProto_trailing _ c hcs.1]

theorem readDecls_trailing (cpp : Bool) (cs : List Token)
    (hcs : cs.all Token.isComment = true) (ts : List Token) :
    ∀ (blocks : List Block) (cur : List Token),
      readDecls cpp blocks (stmtsFrom cur (ts ++ cs)) =
        readDecls cpp blocks (stmtsFrom cur ts) := by
  induction ts with
  | nil => intro blocks cur; exact readDecls_comments cpp blocks cs hcs cur
  | cons t ts ih =>
      intro blocks cur
      rw [List.cons_append]
      simp only [stmtsFrom]
      cases isTerminator t with
      | none => exact ih blocks (t :: cur)
      | some c =>
          simp only [readDecls]
          split
          · split <;> exact ih _ _
          · split
            · exact ih _ _
            · split
              · rw [ih]
              · exact ih _ _

theorem declsOf_trailing (cpp : Bool) (ts cs : List Token)
    (hcs : cs.all Token.isComment = true) : declsOf cpp (ts ++ cs) = declsOf cpp ts :=
  readDecls_trailing cpp cs hcs ts [] []

theorem unit_one : unit 1 = headerTokens := by
  simp [unit]


theorem probe_cpp : ∀ guarded cpp : Bool, (probeEnv guarded cpp).cpp = cpp := by
  decide

theorem declarationsFrom_probe (e : Env) (htop : e.conds = []) :
    declarationsFrom e 1 = declarationsFrom (probeEnv (e.defined.contains guardName) e.cpp) 1 := by
  unfold declarationsFrom
  rw [unit_one, (preprocess_agree headerTokens e _ queried_header (agree_probe e htop)).1,
    probe_cpp]

theorem probe_linkage : ∀ guarded : Bool, ∀ p ∈ declarationsFrom (probeEnv guarded true) 1,
    p.linkage = Linkage.c ∧ p.symbol = Symbol.plain p.name := by
  decide

theorem probe_methods : ∀ cpp : Bool,
    (declarationsFrom (probeEnv false cpp) 1).map Prototype.method =
      [some "createAESCompute", some "createAESInvert", some "setKey"] := by
  decide

/-- C7: in a C++ compilation, that is from any preprocessor state outside
conditional groups in which `__cplusplus` is defined, every prototype the
header declares stands inside the C linkage block: it has C linkage and is
exported under the name written in the header.  Where the header has not been
included before, these are the prototypes of the three methods. -/
theorem prototypes_have_c_linkage (e : Env) (htop : e.conds = []) (hcpp : e.cpp = true) :
    (∀ p ∈ declarationsFrom e 1, p.linkage = Linkage.c ∧ p.symbol = Symbol.plain p.name) ∧
    (e.defined.contains guardName = false →
      (declarationsFrom e 1).map Prototype.method =
        [some "createAESCompute", some "createAESInvert", some "setKey"]) ∧
    (prototypes true).length = 3 := by
  refine ⟨?_, ?_, by decide⟩
  · rw [declarationsFrom_probe e htop, hcpp]
    exact probe_linkage _
  · intro hg
    rw [declarationsFrom_probe e htop, hg]
    exact probe_methods _

/-- C7 at the start of a C++ translation unit: the three declared symbols have
C linkage. -/
theorem prototypes_have_c_linkage_witness :
    (startEnv true).conds = [] ∧ (startEnv true).cpp = true ∧
    (∀ p ∈ declarationsFrom (startEnv true) 1,
      p.linkage = Linkage.c ∧ p.symbol = Symbol.plain p.name) ∧
    (declarationsFrom (startEnv true) 1).map Prototype.method =
      [some "createAESCompute", some "createAESInvert", some "setKey"] :=
  ⟨rfl, by decide, (prototypes_have_c_linkage (startEnv true) rfl (by decide)).1,
    (prototypes_have_c_linkage (startEnv true) rfl (by decide)).2.1 (by decide)⟩

/-- C8: from any preprocessor state outside conditional groups, including the
header `n ≥ 1` times declares the same prototypes as including it once, and
once the header has been included, including it again any number of times
declares nothing.  The name that does this is the include guard, tested by
`#ifndef` and defined on the next line. -/
theorem inclusion_idempotent (e : Env) (n : Nat) (htop : e.conds = []) (hn : 1 ≤ n) :
    declarationsFrom e n = declarationsFrom e 1 ∧
    (∀ k, declarationsFrom (preprocess e headerTokens).2 k = []) ∧
    includeGuardOf headerTokens = some guardName := by
  have hafter := after_inclusion e htop
  refine ⟨?_, ?_, by decide⟩
  · obtain ⟨m, rfl⟩ : ∃ m, n = m + 1 := ⟨n - 1, by omega⟩
    unfold declarationsFrom
    rw [unit_succ, preprocess_append, unit_one]
    exact declsOf_trailing _ _ _ (guarded_unit m _ hafter.1 hafter.2.1)
  · intro k
    unfold declarationsFrom
    have h := declsOf_trailing (preprocess e headerTokens).2.cpp [] _
      (guarded_unit k _ hafter.1 hafter.2.1)
    rw [List.nil_append] at h
    rw [h]
    rfl

/-- C8 at the start of a C++ translation unit: three inclusions declare what
one inclusion declares, and two further inclusions after a first one declare
nothing. -/
theorem inclusion_idempotent_witness :
    (startEnv true).conds = [] ∧ 1 ≤ 3 ∧
    declarationsFrom (startEnv true) 3 = declarationsFrom (startEnv true) 1 ∧
    declarationsFrom (preprocess (startEnv true) headerTokens).2 2 = [] :=
  ⟨rfl, by decide, (inclusion_idempotent (startEnv true) 3 rfl (by decide)).1,
    (inclusion_idempotent (startEnv true) 3 rfl (by decide)).2.1 2⟩

end AESHeader

/-! ## The native side: handles -/

namespace NativeModel

theorem freshAddress_pos {n : Native} {a : Nat} (h : freshAddress n = some a) :
    a ≠ 0 ∧ a < 2 ^ 64 := by
  unfold freshAddress at h
  simp only at h
  split at h
  · cases h
    exact ⟨Nat.succ_ne_zero _, by assumption⟩
  · cases h

theorem createAES_live {d : Direction} {n n1 : Native} {h : Nat}
    (hc : createAES d n = some (h, n1)) : n1.live h = true := by
  unfold createAES at hc
  split at hc
  · cases hc
    simp [Native.live]
  · cases hc

theorem createAES_keeps {d : Direction} {n n1 : Native} {h a : Nat}
    (hc : createAES d n = some (h, n1)) (ha : n.live a = true) : n1.live a = true := by
  unfold createAES at hc
  split at hc
  · cases hc
    simp only [Native.live, List.any_cons, Bool.or_eq_true] at ha ⊢
    exact Or.inr ha
  · cases hc

theorem install_live (h : Nat) (key : List Nat) (n : Native) (a : Nat) :
    (install h key n).live a = n.live a := by
  unfold install Native.live
  induction n.contexts with
  | nil => rfl
  | cons p ps ih =>
      simp only [List.map_cons, List.any_cons, ih]
      split <;> rfl

theorem step_keeps (keyOk : List Nat → Bool) (n : Native) (c : Call) (a : Nat)
    (ha : n.live a = true) : (step keyOk n c).live a = true := by
  cases c with
  | createCompute =>
      simp only [step]
      cases hc : createAESCompute n with
      | none => exact ha
      | some r => exact @createAES_keeps Direction.forward n r.2 r.1 a hc ha
  | createInvert =>
      simp only [step]
      cases hc : createAESInvert n with
      | none => exact ha
      | some r => exact @createAES_keeps Direction.inverse n r.2 r.1 a hc ha
  | setKey h1 h2 key =>
      simp only [step]
      cases hs : setKey keyOk h1 h2 key n with
      | invalidHandle => exact ha
      | invalidKey => exact ha
      | installed n1 =>
          unfold setKey at hs
          split at hs
          · split at hs
            · cases hs
              simp only [install_live]
              exact ha
            · cases hs
          · cases hs

theorem run_keeps (keyOk : List Nat → Bool) (calls : List Call) :
    ∀ (n : Native) (a : Nat), n.live a = true → (run keyOk n calls).live a = true := by
  induction calls with
  | nil => intro n a ha; exact ha
  | cons c cs ih =>
      intro n a ha
      exact ih (step keyOk n c) a (step_keeps keyOk n c a ha)

/-- C5: in the model of the native side, a successful `createAESCompute` or
`createAESInvert` returns a handle that is not zero and fits 64 bits, and after
any further calls of the three entry points `setKey` accepts it, in either
handle position and next to any usable handle: the call does not fail on the
handle, and with a key the cipher library takes it installs the key. -/
theorem created_handle_nonzero_and_accepted (keyOk : List Nat → Bool) (n n1 : Native) (h : Nat)
    (hc : createAESCompute n = some (h, n1) ∨ createAESInvert n = some (h, n1)) :
    h ≠ 0 ∧ h < 2 ^ 64 ∧
    ∀ (calls : List Call) (h2 : Nat) (key : List Nat),
      (run keyOk n1 calls).live h2 = true →
      setKey keyOk h h2 key (run keyOk n1 calls) ≠ SetKeyOutcome.invalidHandle ∧
      setKey keyOk h2 h key (run keyOk n1 calls) ≠ SetKeyOutcome.invalidHandle ∧
      (keyOk key = true →
        setKey keyOk h h2 key (run keyOk n1 calls) =
          SetKeyOutcome.installed (install h2 key (install h key (run keyOk n1 calls)))) := by
  have hd : ∃ d, createAES d n = some (h, n1) := by
    rcases hc with hc | hc
    · exact ⟨.forward, hc⟩
    · exact ⟨.inverse, hc⟩
  obtain ⟨d, hd⟩ := hd
  have hfresh : freshAddress n = some h := by
    unfold createAES at hd
    split at hd
    · cases hd
      assumption
    · cases hd
  refine ⟨(freshAddress_pos hfresh).1, (freshAddress_pos hfresh).2, ?_⟩
  intro calls h2 key hlive2
  have hlive := run_keeps keyOk calls n1 h (createAES_live hd)
  refine ⟨?_, ?_, ?_⟩
  · simp only [setKey, hlive, hlive2, Bool.and_self, if_true]
    split <;> simp
  · simp only [setKey, hlive, hlive2, Bool.and_self, if_true]
    split <;> simp
  · intro hk
    simp [setKey, hlive, hlive2, hk]

/-- C5 on fresh native memory: the first `createAESCompute` returns the handle
1, and after a `createAESInvert` (which returns 2) `setKey` on the two handles
with a 16-byte key does not fail on the handle. -/
theorem created_handle_nonzero_and_accepted_witness :
    createAESCompute ⟨[]⟩ = some (1, ⟨[(1, ⟨.forward, none⟩)]⟩) ∧
    (1 : Nat) ≠ 0 ∧
    setKey aesKeyLength 1 2 (List.replicate 16 0)
      (run aesKeyLength ⟨[(1, ⟨.forward, none⟩)]⟩ [Call.createInvert]) ≠
        SetKeyOutcome.invalidHandle :=
  ⟨by decide,
    (created_handle_nonzero_and_accepted aesKeyLength ⟨[]⟩ ⟨[(1, ⟨.forward, none⟩)]⟩ 1
      (Or.inl (by decide))).1,
    ((created_handle_nonzero_and_accepted aesKeyLength ⟨[]⟩ ⟨[(1, ⟨.forward, none⟩)]⟩ 1
      (Or.inl (by decide))).2.2 [Call.createInvert] 2 (List.replicate 16 0) (by decide)).1⟩

end NativeModel
